import Mathlib

/-
Verification of the Black-Scholes call pricing core found in
src/components/default.js and src/components/reverse.js.

The JavaScript number arithmetic is embedded over the real numbers: each
source function becomes a Lean function on ℝ. The JavaScript function
blackScholesCall returns either the bare number 0 (degenerate branch) or an
object with six fields; this sum of shapes is embedded as the inductive type
BSResult below. Accessing the field premium on the bare number yields
undefined in JavaScript, which is embedded as Option.none.
-/

namespace BS

/-- normCDF from src/components/default.js (lines 5-13). -/
noncomputable def normCDF (x : ℝ) : ℝ :=
  let t := 1 / (1 + 0.2316419 * |x|)
  let d := 0.3989423 * Real.exp (-x * x / 2)
  let prob := d * t * (0.3193815 + t * (-0.3565638 + t * (1.781478 + t * (-1.821256 + t * 1.330274))))
  if x > 0 then 1 - prob else prob

/-- the six-field result object built by the non-degenerate branch of
blackScholesCall (both source files build the same shape). -/
structure PricingResult where
  premium : ℝ
  d1 : ℝ
  d2 : ℝ
  Nd1 : ℝ
  Nd2 : ℝ
  discountFactor : ℝ

/-- a blackScholesCall return value: the degenerate branch returns the bare
number 0, the main branch returns a six-field object. -/
inductive BSResult where
  | bare (value : ℝ)
  | record (res : PricingResult)

/-- blackScholesCall from src/components/default.js (lines 15-31). -/
noncomputable def blackScholesCall (S K T r sigma : ℝ) : BSResult :=
  if T ≤ 0 ∨ sigma ≤ 0 then .bare 0
  else
    let d1 := (Real.log (S / K) + (r + 0.5 * sigma * sigma) * T) / (sigma * Real.sqrt T)
    let d2 := d1 - sigma * Real.sqrt T
    let callPrice := S * normCDF d1 - K * Real.exp (-r * T) * normCDF d2
    .record ⟨callPrice, d1, d2, normCDF d1, normCDF d2, Real.exp (-r * T)⟩

/-- the numeric value a caller sees as the premium: the bare number itself in
the degenerate branch, the premium field in the main branch. -/
def BSResult.thePremium : BSResult → ℝ
  | .bare v => v
  | .record p => p.premium

/-- JavaScript access res.premium: undefined (none) on the bare number,
the premium field on the object. -/
def BSResult.premiumField : BSResult → Option ℝ
  | .bare _ => none
  | .record p => some p.premium

namespace Rev

/-- normCDF from src/components/reverse.js (lines 15-20); textually the same
formula as the default.js copy, with a ternary instead of an if statement. -/
noncomputable def normCDF (x : ℝ) : ℝ :=
  let t := 1 / (1 + 0.2316419 * |x|)
  let d := 0.3989423 * Real.exp (-x * x / 2)
  let p := d * t * (0.3193815 + t * (-0.3565638 + t * (1.781478 + t * (-1.821256 + t * 1.330274))))
  if x > 0 then 1 - p else p

/-- blackScholesCall from src/components/reverse.js (lines 23-39); writes
(sigma * sigma) / 2 where default.js writes 0.5 * sigma * sigma. -/
noncomputable def blackScholesCall (S K T r sigma : ℝ) : BSResult :=
  if T ≤ 0 ∨ sigma ≤ 0 then .bare 0
  else
    let d1 := (Real.log (S / K) + (r + sigma * sigma / 2) * T) / (sigma * Real.sqrt T)
    let d2 := d1 - sigma * Real.sqrt T
    let callPrice := S * normCDF d1 - K * Real.exp (-r * T) * normCDF d2
    .record ⟨callPrice, d1, d2, normCDF d1, normCDF d2, Real.exp (-r * T)⟩

/-- the five pricing inputs held in the component state of reverse.js. -/
structure Inputs where
  S : ℝ
  K : ℝ
  T : ℝ
  r : ℝ
  sigma : ℝ

/-- the sensitivityType key selecting which input the sweep varies. -/
inductive ParamKey where
  | S | K | T | r | sigma
deriving DecidableEq

/-- reading one field of the inputs object by key. -/
def getParam (inputs : Inputs) : ParamKey → ℝ
  | .S => inputs.S
  | .K => inputs.K
  | .T => inputs.T
  | .r => inputs.r
  | .sigma => inputs.sigma

/-- the spread update of reverse.js line 74: all fields of inputs kept, the
keyed field replaced by the given value. -/
def setParam (inputs : Inputs) : ParamKey → ℝ → Inputs
  | .S, v => { inputs with S := v }
  | .K, v => { inputs with K := v }
  | .T, v => { inputs with T := v }
  | .r, v => { inputs with r := v }
  | .sigma, v => { inputs with sigma := v }

/-- the min bound of the ranges table in reverse.js lines 56-66. -/
noncomputable def rangeMin (inputs : Inputs) : ParamKey → ℝ
  | .S => inputs.S * 0.7
  | .K => inputs.K * 0.7
  | .T => 0.1
  | .r => 0.01
  | .sigma => 0.05

/-- the max bound of the ranges table in reverse.js lines 56-66. -/
noncomputable def rangeMax (inputs : Inputs) : ParamKey → ℝ
  | .S => inputs.S * 1.3
  | .K => inputs.K * 1.3
  | .T => 2
  | .r => 0.15
  | .sigma => 0.6

/-- the label of the ranges table in reverse.js lines 56-66. -/
def rangeLabel : ParamKey → String
  | .S => "Stock Price (₹)"
  | .K => "Strike Price (₹)"
  | .T => "Time to Expiry (years)"
  | .r => "Risk-free Rate"
  | .sigma => "Volatility"

/-- one element pushed onto the data array in reverse.js lines 83-87. -/
structure SensPoint where
  x : ℝ
  premium : Option ℝ
  label : String

/-- generateSensitivityData from src/components/reverse.js (lines 54-91):
steps is the literal 50, the loop runs i = 0 .. steps inclusive, and each
iteration prices the inputs with the keyed field replaced by
min + i * stepSize. -/
noncomputable def generateSensitivityData (inputs : Inputs) (sensitivityType : ParamKey) :
    List SensPoint :=
  let rmin := rangeMin inputs sensitivityType
  let rmax := rangeMax inputs sensitivityType
  let steps : ℕ := 50
  let stepSize := (rmax - rmin) / (steps : ℝ)
  (List.range (steps + 1)).map fun (i : ℕ) =>
    let value := rmin + (i : ℝ) * stepSize
    let ti := setParam inputs sensitivityType value
    let res := blackScholesCall ti.S ti.K ti.T ti.r ti.sigma
    { x := value, premium := res.premiumField, label := rangeLabel sensitivityType }

end Rev

/-! Helper functions and lemmas about the normCDF approximation. -/

/-- the rational map t = 1 / (1 + 0.2316419 u) used inside normCDF. -/
noncomputable def tval (u : ℝ) : ℝ := 1 / (1 + 0.2316419 * u)

/-- the Horner polynomial of normCDF, as a function of t. -/
def hpoly (t : ℝ) : ℝ :=
  0.3193815 + t * (-0.3565638 + t * (1.781478 + t * (-1.821256 + t * 1.330274)))

/-- the one-sided tail value normCDF computes from the magnitude of its
argument: the product density times t times the Horner polynomial. -/
noncomputable def gtail (u : ℝ) : ℝ :=
  0.3989423 * Real.exp (-u * u / 2) * (tval u * hpoly (tval u))

lemma normCDF_of_nonpos {x : ℝ} (hx : x ≤ 0) : normCDF x = gtail (-x) := by
  have h1 : ¬ x > 0 := not_lt.mpr hx
  simp only [normCDF, gtail, tval, hpoly, if_neg h1, abs_of_nonpos hx]
  ring_nf

lemma normCDF_of_pos {x : ℝ} (hx : 0 < x) : normCDF x = 1 - gtail x := by
  simp only [normCDF, gtail, tval, hpoly, if_pos hx, abs_of_pos hx]
  ring_nf

lemma hpoly_nonneg {t : ℝ} (h0 : 0 ≤ t) (h1 : t ≤ 1) : 0 ≤ hpoly t := by
  unfold hpoly
  nlinarith [sq_nonneg (t - 0.13), sq_nonneg (t * t - 0.3 * t), sq_nonneg t,
    mul_nonneg h0 h0, mul_nonneg (mul_nonneg h0 h0) h0, sq_nonneg (t * t - t),
    mul_nonneg (mul_nonneg (mul_nonneg h0 h0) h0) h0, sq_nonneg (1 - t)]

lemma hpoly_mul_monotoneOn : MonotoneOn (fun t : ℝ => t * hpoly t) (Set.Icc 0 1) := by
  have hfun : (fun t : ℝ => t * hpoly t) = (fun t : ℝ =>
      0.3193815*t^1 + (-0.3565638)*t^2 + 1.781478*t^3 + (-1.821256)*t^4 + 1.330274*t^5) := by
    funext t; unfold hpoly; ring
  rw [hfun]
  apply monotoneOn_of_deriv_nonneg (convex_Icc 0 1)
  · fun_prop
  · apply Differentiable.differentiableOn; fun_prop
  · intro x hx
    rw [interior_Icc, Set.mem_Ioo] at hx
    have hD : HasDerivAt (fun t : ℝ =>
        0.3193815*t^1 + (-0.3565638)*t^2 + 1.781478*t^3 + (-1.821256)*t^4 + 1.330274*t^5)
        (0.3193815*((1:ℕ)*x^0) + (-0.3565638)*((2:ℕ)*x^1) + 1.781478*((3:ℕ)*x^2)
          + (-1.821256)*((4:ℕ)*x^3) + 1.330274*((5:ℕ)*x^4)) x :=
      (((((hasDerivAt_pow 1 x).const_mul _).add ((hasDerivAt_pow 2 x).const_mul _)).add
        ((hasDerivAt_pow 3 x).const_mul _)).add ((hasDerivAt_pow 4 x).const_mul _)).add
        ((hasDerivAt_pow 5 x).const_mul _)
    rw [hD.deriv]
    push_cast
    obtain ⟨h0, h1⟩ := hx
    nlinarith [sq_nonneg (x - 1/12), sq_nonneg (x*x - x/12), sq_nonneg (x*x - x),
      mul_pos h0 h0, sq_nonneg x, mul_nonneg (mul_nonneg h0.le h0.le) h0.le]

lemma hpoly_mul_mono {a b : ℝ} (h0 : 0 ≤ a) (hab : a ≤ b) (h1 : b ≤ 1) :
    a * hpoly a ≤ b * hpoly b :=
  hpoly_mul_monotoneOn ⟨h0, hab.trans h1⟩ ⟨h0.trans hab, h1⟩ hab

lemma hpoly_mul_lip_monotoneOn :
    MonotoneOn (fun t : ℝ => 21 * t - t * hpoly t) (Set.Icc 0 1) := by
  have hfun : (fun t : ℝ => 21 * t - t * hpoly t) = (fun t : ℝ =>
      20.6806185*t^1 + 0.3565638*t^2 + (-1.781478)*t^3 + 1.821256*t^4 + (-1.330274)*t^5) := by
    funext t; unfold hpoly; ring
  rw [hfun]
  apply monotoneOn_of_deriv_nonneg (convex_Icc 0 1)
  · fun_prop
  · apply Differentiable.differentiableOn; fun_prop
  · intro x hx
    rw [interior_Icc, Set.mem_Ioo] at hx
    have hD : HasDerivAt (fun t : ℝ =>
        20.6806185*t^1 + 0.3565638*t^2 + (-1.781478)*t^3 + 1.821256*t^4 + (-1.330274)*t^5)
        (20.6806185*((1:ℕ)*x^0) + 0.3565638*((2:ℕ)*x^1) + (-1.781478)*((3:ℕ)*x^2)
          + 1.821256*((4:ℕ)*x^3) + (-1.330274)*((5:ℕ)*x^4)) x :=
      (((((hasDerivAt_pow 1 x).const_mul _).add ((hasDerivAt_pow 2 x).const_mul _)).add
        ((hasDerivAt_pow 3 x).const_mul _)).add ((hasDerivAt_pow 4 x).const_mul _)).add
        ((hasDerivAt_pow 5 x).const_mul _)
    rw [hD.deriv]
    push_cast
    obtain ⟨h0, h1⟩ := hx
    nlinarith [sq_nonneg x, mul_pos h0 h0, mul_nonneg (mul_nonneg h0.le h0.le) h0.le,
      mul_nonneg (mul_nonneg (mul_nonneg h0.le h0.le) h0.le) h0.le, sq_nonneg (1-x)]

lemma hpoly_mul_lip {a b : ℝ} (h0 : 0 ≤ a) (hab : a ≤ b) (h1 : b ≤ 1) :
    b * hpoly b - a * hpoly a ≤ 21 * (b - a) := by
  have h := hpoly_mul_lip_monotoneOn ⟨h0, hab.trans h1⟩ ⟨h0.trans hab, h1⟩ hab
  simp only at h
  linarith

lemma tval_pos {u : ℝ} (hu : 0 ≤ u) : 0 < tval u := by
  unfold tval
  have h : (0:ℝ) < 1 + 0.2316419 * u := by nlinarith
  exact one_div_pos.mpr h

lemma tval_le_one {u : ℝ} (hu : 0 ≤ u) : tval u ≤ 1 := by
  unfold tval
  have h : (0:ℝ) < 1 + 0.2316419 * u := by nlinarith
  rw [div_le_one h]; nlinarith

lemma tval_antitone {u v : ℝ} (hu : 0 ≤ u) (huv : u ≤ v) : tval v ≤ tval u := by
  unfold tval
  have h1 : (0:ℝ) < 1 + 0.2316419 * u := by nlinarith
  apply one_div_le_one_div_of_le h1
  nlinarith

lemma tval_diff_le {u v : ℝ} (hu : 0 ≤ u) (huv : u ≤ v) :
    tval u - tval v ≤ 0.2316419 * (v - u) := by
  unfold tval
  have h1 : (0:ℝ) < 1 + 0.2316419 * u := by nlinarith
  have h2 : (0:ℝ) < 1 + 0.2316419 * v := by nlinarith
  rw [div_sub_div _ _ (ne_of_gt h1) (ne_of_gt h2)]
  rw [div_le_iff (by positivity)]
  have hv : 0 ≤ v := hu.trans huv
  nlinarith [mul_nonneg hu hv, mul_nonneg hu hu, mul_nonneg hv hv,
    mul_nonneg (mul_nonneg hu hv) (sub_nonneg.mpr huv)]

lemma gtail_nonneg {u : ℝ} (hu : 0 ≤ u) : 0 ≤ gtail u := by
  unfold gtail
  have ht0 := tval_pos hu
  have ht1 := tval_le_one hu
  have hp := hpoly_nonneg ht0.le ht1
  have he := (Real.exp_pos (-u * u / 2)).le
  positivity

lemma gtail_antitone {u v : ℝ} (hu : 0 ≤ u) (huv : u ≤ v) : gtail v ≤ gtail u := by
  unfold gtail
  have hv : 0 ≤ v := hu.trans huv
  have hE : Real.exp (-v * v / 2) ≤ Real.exp (-u * u / 2) :=
    Real.exp_le_exp.mpr (by nlinarith)
  have hH : tval v * hpoly (tval v) ≤ tval u * hpoly (tval u) :=
    hpoly_mul_mono (tval_pos hv).le (tval_antitone hu huv) (tval_le_one hu)
  have hHnn : 0 ≤ tval v * hpoly (tval v) :=
    mul_nonneg (tval_pos hv).le
      (hpoly_nonneg (tval_pos hv).le (tval_le_one hv))
  have hstep : Real.exp (-v * v / 2) * (tval v * hpoly (tval v))
      ≤ Real.exp (-u * u / 2) * (tval u * hpoly (tval u)) :=
    mul_le_mul hE hH hHnn (Real.exp_pos _).le
  nlinarith [hstep]

lemma gtail_zero : gtail 0 = 0.49999985009951 := by
  unfold gtail tval hpoly
  norm_num

lemma gtail_le_gtail_zero {u : ℝ} (hu : 0 ≤ u) : gtail u ≤ 0.49999985009951 :=
  gtail_zero ▸ gtail_antitone le_rfl hu

/-- normCDF is monotone non-decreasing on all of ℝ; the two sign branches
each inherit monotonicity from the tail, and at the branch switch the value
steps up from gtail 0 to 1 - gtail 0. -/
lemma normCDF_mono {x y : ℝ} (hxy : x ≤ y) : normCDF x ≤ normCDF y := by
  rcases le_or_lt x 0 with hx | hx
  · rcases le_or_lt y 0 with hy | hy
    · rw [normCDF_of_nonpos hx, normCDF_of_nonpos hy]
      exact gtail_antitone (neg_nonneg.mpr hy) (by linarith)
    · rw [normCDF_of_nonpos hx, normCDF_of_pos hy]
      have h1 : gtail (-x) ≤ 0.49999985009951 :=
        gtail_le_gtail_zero (neg_nonneg.mpr hx)
      have h2 : gtail y ≤ 0.49999985009951 := gtail_le_gtail_zero hy.le
      linarith
  · have hy : 0 < y := lt_of_lt_of_le hx hxy
    rw [normCDF_of_pos hx, normCDF_of_pos hy]
    have := gtail_antitone hx.le hxy
    linarith

lemma normCDF_nonneg (x : ℝ) : 0 ≤ normCDF x := by
  rcases le_or_lt x 0 with hx | hx
  · rw [normCDF_of_nonpos hx]
    exact gtail_nonneg (neg_nonneg.mpr hx)
  · rw [normCDF_of_pos hx]
    have := gtail_le_gtail_zero hx.le
    linarith

lemma normCDF_le_one (x : ℝ) : normCDF x ≤ 1 := by
  rcases le_or_lt x 0 with hx | hx
  · rw [normCDF_of_nonpos hx]
    have := gtail_le_gtail_zero (neg_nonneg.mpr hx)
    linarith
  · rw [normCDF_of_pos hx]
    have := gtail_nonneg hx.le
    linarith

/-- the six-field object built by the non-degenerate branch, as a function of
the inputs. -/
noncomputable def bsRecord (S K T r sigma : ℝ) : PricingResult :=
  let d1 := (Real.log (S / K) + (r + 0.5 * sigma * sigma) * T) / (sigma * Real.sqrt T)
  let d2 := d1 - sigma * Real.sqrt T
  ⟨S * normCDF d1 - K * Real.exp (-r * T) * normCDF d2, d1, d2,
    normCDF d1, normCDF d2, Real.exp (-r * T)⟩

lemma blackScholesCall_of_pos {S K T r sigma : ℝ} (hT : 0 < T) (hs : 0 < sigma) :
    blackScholesCall S K T r sigma = .record (bsRecord S K T r sigma) := by
  unfold blackScholesCall bsRecord
  rw [if_neg]
  push_neg
  exact ⟨hT, hs⟩

lemma blackScholesCall_degenerate {S K T r sigma : ℝ} (h : T ≤ 0 ∨ sigma ≤ 0) :
    blackScholesCall S K T r sigma = .bare 0 := by
  unfold blackScholesCall
  rw [if_pos h]

/-! Quantitative facts used to exhibit the discontinuity of the premium at a
branch switch of the approximated CDF. -/

lemma exp_neg_half_le_one : Real.exp (-1 * 1 / 2) ≤ 1 :=
  Real.exp_le_one_iff.mpr (by norm_num)

lemma exp_neg_half_gt : (3:ℝ)/5 < Real.exp (-1 * 1 / 2) := by
  have h2 : Real.exp (-1 * 1 / 2) ^ 2 = Real.exp (-1) := by
    rw [← Real.exp_nat_mul]
    norm_num
  have h3 : Real.exp 1 < 25/9 := lt_trans Real.exp_one_lt_d9 (by norm_num)
  have h4 : (9:ℝ)/25 < Real.exp (-1) := by
    rw [Real.exp_neg, show (9:ℝ)/25 = (25/9)⁻¹ by norm_num]
    exact (inv_lt_inv (by norm_num) (Real.exp_pos 1)).mpr h3
  refine lt_of_pow_lt_pow_left 2 (Real.exp_pos _).le ?_
  rw [h2]
  nlinarith [h4]

lemma exp_drop {δ : ℝ} (h0 : 0 ≤ δ) (h1 : δ ≤ 1) :
    Real.exp (-1 * 1 / 2) - Real.exp (-(1 + δ) * (1 + δ) / 2) ≤ 3 / 2 * δ := by
  have e1 : Real.exp (-1 * 1 / 2) * Real.exp (-(3/2) * δ)
      ≤ Real.exp (-(1 + δ) * (1 + δ) / 2) := by
    rw [← Real.exp_add]
    apply Real.exp_le_exp.mpr
    nlinarith
  have e2 : 1 - 3/2 * δ ≤ Real.exp (-(3/2) * δ) := by
    have := Real.add_one_le_exp (-(3/2) * δ)
    linarith
  have e4 : Real.exp (-1 * 1 / 2) * (1 - 3/2 * δ)
      ≤ Real.exp (-1 * 1 / 2) * Real.exp (-(3/2) * δ) :=
    mul_le_mul_of_nonneg_left e2 (Real.exp_pos _).le
  nlinarith [exp_neg_half_le_one, Real.exp_pos (-1 * 1 / 2)]

lemma gtail_drop {δ : ℝ} (h0 : 0 ≤ δ) (h1 : δ ≤ 1) : gtail 1 - gtail (1 + δ) ≤ 3 * δ := by
  have h2pos : 0 < tval (1 + δ) := tval_pos (by linarith)
  have h21 : tval (1 + δ) ≤ tval 1 := tval_antitone (by norm_num) (by linarith)
  have h1le : tval 1 ≤ 1 := tval_le_one (by norm_num)
  have hdiff : tval 1 - tval (1 + δ) ≤ 0.2316419 * δ := by
    have := tval_diff_le (u := 1) (v := 1 + δ) (by norm_num) (by linarith)
    linarith [this]
  have hHdiff : tval 1 * hpoly (tval 1) - tval (1 + δ) * hpoly (tval (1 + δ))
      ≤ 21 * (tval 1 - tval (1 + δ)) := hpoly_mul_lip h2pos.le h21 h1le
  have hHnn : 0 ≤ tval (1 + δ) * hpoly (tval (1 + δ)) :=
    mul_nonneg h2pos.le (hpoly_nonneg h2pos.le (h21.trans h1le))
  have hHub : tval (1 + δ) * hpoly (tval (1 + δ)) ≤ 1 * hpoly 1 :=
    hpoly_mul_mono h2pos.le (h21.trans h1le) le_rfl
  have hpoly1 : (1:ℝ) * hpoly 1 = 1.2533137 := by unfold hpoly; norm_num
  have hH01 : 0 ≤ tval 1 * hpoly (tval 1) - tval (1 + δ) * hpoly (tval (1 + δ)) :=
    sub_nonneg.mpr (hpoly_mul_mono h2pos.le h21 h1le)
  have hE2leE1 : Real.exp (-(1 + δ) * (1 + δ) / 2) ≤ Real.exp (-1 * 1 / 2) :=
    Real.exp_le_exp.mpr (by nlinarith)
  have hEdrop := exp_drop h0 h1
  have s1 : Real.exp (-1 * 1 / 2)
        * (tval 1 * hpoly (tval 1) - tval (1 + δ) * hpoly (tval (1 + δ)))
      ≤ 1 * (21 * (0.2316419 * δ)) := by
    apply mul_le_mul exp_neg_half_le_one ?_ hH01 (by norm_num)
    linarith
  have s2 : (Real.exp (-1 * 1 / 2) - Real.exp (-(1 + δ) * (1 + δ) / 2))
        * (tval (1 + δ) * hpoly (tval (1 + δ)))
      ≤ (3/2 * δ) * 1.2533137 := by
    apply mul_le_mul hEdrop ?_ hHnn (by linarith)
    linarith
  have hsplit : gtail 1 - gtail (1 + δ)
      = 0.3989423 * (Real.exp (-1 * 1 / 2)
          * (tval 1 * hpoly (tval 1) - tval (1 + δ) * hpoly (tval (1 + δ)))
        + (Real.exp (-1 * 1 / 2) - Real.exp (-(1 + δ) * (1 + δ) / 2))
          * (tval (1 + δ) * hpoly (tval (1 + δ)))) := by
    unfold gtail
    ring
  rw [hsplit]
  nlinarith [s1, s2]

/-- premium of the call at strike 1, expiry 1, rate 1/2, volatility 1, as a
function of the spot: here d1 = 1 + log S and d2 = log S. -/
lemma premium_at (S : ℝ) :
    (blackScholesCall S 1 1 (1/2) 1).thePremium
      = S * normCDF (1 + Real.log S)
        - Real.exp (-1 * 1 / 2) * normCDF (Real.log S) := by
  rw [@blackScholesCall_of_pos S 1 1 (1/2) 1 one_pos one_pos]
  simp only [BSResult.thePremium]
  unfold bsRecord
  rw [Real.sqrt_one]
  have h1 : (Real.log (S / 1) + ((1:ℝ)/2 + 0.5 * 1 * 1) * 1) / (1 * 1) = 1 + Real.log S := by
    rw [div_one]; ring
  rw [h1]
  dsimp only
  have h2 : 1 + Real.log S - 1 * 1 = Real.log S := by ring
  rw [h2]
  have h3 : Real.exp (-(1/2) * 1) = Real.exp (-1 * 1 / 2) := by norm_num
  rw [h3]
  ring

/-- abstract form of the jump inequality: with E between 3/5 and 1, a tail
drop of at most 3 delta across [1, 1 + delta], and the exact branch value
at 0, the premium at spot 1 + 1e-9 is below the premium at spot 1. -/
lemma premium_jump_key {E gd g1 gB δ : ℝ}
    (hδ0 : 0 < δ) (hδe : δ ≤ 1/1000000000)
    (hdrop : g1 - gB ≤ 3 * δ) (hgB : 0 ≤ gB)
    (hgd : gd ≤ 0.49999985009951)
    (hE1 : E ≤ 1) (hE2 : 3/5 < E) :
    (1 + 1/1000000000) * (1 - gB) - E * (1 - gd)
      < 1 * (1 - g1) - E * 0.49999985009951 := by
  have p2 : (3/5) * (1 - 0.49999985009951 - gd) ≤ E * (1 - 0.49999985009951 - gd) :=
    mul_le_mul_of_nonneg_right hE2.le (by linarith)
  nlinarith [p2, hgB, hdrop, hδ0, hδe]

/-! Claim theorems. -/

/-- C1: for every input with T > 0 and sigma > 0, blackScholesCall returns the
record whose fields satisfy exactly d1 = (ln(S/K) + (r + 0.5 sigma^2) T) /
(sigma sqrt T), d2 = d1 - sigma sqrt T, Nd1 = normCDF d1, Nd2 = normCDF d2,
discountFactor = exp(-r T), premium = S Nd1 - K discountFactor Nd2, with all
six fields populated. -/
theorem blackScholesCall_normal_fields (S K T r sigma : ℝ)
    (hT : 0 < T) (hs : 0 < sigma) :
    blackScholesCall S K T r sigma = .record
      { premium := S * normCDF ((Real.log (S / K) + (r + 0.5 * sigma * sigma) * T)
            / (sigma * Real.sqrt T))
          - K * Real.exp (-r * T) * normCDF ((Real.log (S / K)
              + (r + 0.5 * sigma * sigma) * T) / (sigma * Real.sqrt T)
            - sigma * Real.sqrt T),
        d1 := (Real.log (S / K) + (r + 0.5 * sigma * sigma) * T)
            / (sigma * Real.sqrt T),
        d2 := (Real.log (S / K) + (r + 0.5 * sigma * sigma) * T)
            / (sigma * Real.sqrt T) - sigma * Real.sqrt T,
        Nd1 := normCDF ((Real.log (S / K) + (r + 0.5 * sigma * sigma) * T)
            / (sigma * Real.sqrt T)),
        Nd2 := normCDF ((Real.log (S / K) + (r + 0.5 * sigma * sigma) * T)
            / (sigma * Real.sqrt T) - sigma * Real.sqrt T),
        discountFactor := Real.exp (-r * T) } := by
  rw [blackScholesCall_of_pos hT hs]
  rfl

/-- C1 witness: the field equations instantiated at S = 2500, K = 2400,
T = 1, r = 0.05, sigma = 0.2. -/
theorem blackScholesCall_normal_fields_witness :
    blackScholesCall 2500 2400 1 0.05 0.2 = .record
      { premium := 2500 * normCDF ((Real.log (2500 / 2400) + (0.05 + 0.5 * 0.2 * 0.2) * 1)
            / (0.2 * Real.sqrt 1))
          - 2400 * Real.exp (-0.05 * 1) * normCDF ((Real.log (2500 / 2400)
              + (0.05 + 0.5 * 0.2 * 0.2) * 1) / (0.2 * Real.sqrt 1)
            - 0.2 * Real.sqrt 1),
        d1 := (Real.log (2500 / 2400) + (0.05 + 0.5 * 0.2 * 0.2) * 1)
            / (0.2 * Real.sqrt 1),
        d2 := (Real.log (2500 / 2400) + (0.05 + 0.5 * 0.2 * 0.2) * 1)
            / (0.2 * Real.sqrt 1) - 0.2 * Real.sqrt 1,
        Nd1 := normCDF ((Real.log (2500 / 2400) + (0.05 + 0.5 * 0.2 * 0.2) * 1)
            / (0.2 * Real.sqrt 1)),
        Nd2 := normCDF ((Real.log (2500 / 2400) + (0.05 + 0.5 * 0.2 * 0.2) * 1)
            / (0.2 * Real.sqrt 1) - 0.2 * Real.sqrt 1),
        discountFactor := Real.exp (-0.05 * 1) } :=
  blackScholesCall_normal_fields 2500 2400 1 0.05 0.2 (by norm_num) (by norm_num)

/-- C2: for every input with T ≤ 0 or sigma ≤ 0, blackScholesCall
short-circuits in the guard and returns the bare number 0 without evaluating
the log, square root or division, and the resulting premium is 0 exactly. -/
theorem blackScholesCall_degenerate_guard (S K T r sigma : ℝ)
    (h : T ≤ 0 ∨ sigma ≤ 0) :
    blackScholesCall S K T r sigma = .bare 0
      ∧ (blackScholesCall S K T r sigma).thePremium = 0 := by
  refine ⟨blackScholesCall_degenerate h, ?_⟩
  rw [blackScholesCall_degenerate h]
  rfl

/-- C2 witness: the degenerate guard instantiated at S = 2500, K = 2400,
T = 0, r = 0.05, sigma = 0.2. -/
theorem blackScholesCall_degenerate_guard_witness :
    blackScholesCall 2500 2400 0 0.05 0.2 = .bare 0
      ∧ (blackScholesCall 2500 2400 0 0.05 0.2).thePremium = 0 :=
  blackScholesCall_degenerate_guard 2500 2400 0 0.05 0.2 (Or.inl le_rfl)

/-- C3: the two branches of blackScholesCall return values of different
shapes: the degenerate branch returns the bare numeric 0 carrying no
auxiliary fields, the normal branch always returns a record with all six
fields, and a bare value never equals a record. -/
theorem blackScholesCall_branch_shapes :
    (∀ S K T r sigma : ℝ, (T ≤ 0 ∨ sigma ≤ 0) →
        blackScholesCall S K T r sigma = .bare 0)
    ∧ (∀ S K T r sigma : ℝ, 0 < T → 0 < sigma →
        ∃ p : PricingResult, blackScholesCall S K T r sigma = .record p)
    ∧ (∀ (v : ℝ) (p : PricingResult), BSResult.bare v ≠ BSResult.record p) :=
  ⟨fun _ _ _ _ _ h => blackScholesCall_degenerate h,
    fun _ _ _ _ _ hT hs => ⟨_, blackScholesCall_of_pos hT hs⟩,
    fun _ _ h => BSResult.noConfusion h⟩

/-- C3 witness: the branch shapes at concrete inputs, degenerate at T = 0
and normal at T = 1. -/
theorem blackScholesCall_branch_shapes_witness :
    blackScholesCall 1 1 0 0 1 = .bare 0
      ∧ (∃ p : PricingResult, blackScholesCall 1 1 1 0 1 = .record p)
      ∧ BSResult.bare 0 ≠ BSResult.record (bsRecord 1 1 1 0 1) :=
  ⟨blackScholesCall_branch_shapes.1 1 1 0 0 1 (Or.inl le_rfl),
    blackScholesCall_branch_shapes.2.1 1 1 1 0 1 one_pos one_pos,
    blackScholesCall_branch_shapes.2.2 0 (bsRecord 1 1 1 0 1)⟩

/-- C4: for every real x, normCDF computes t = 1/(1 + 0.2316419 abs x),
d = 0.3989423 exp(-x^2/2), prob = d t (0.3193815 + t (-0.3565638 +
t (1.781478 + t (-1.821256 + t 1.330274)))) in Horner form with those
coefficients in that order, returning 1 - prob when x > 0 and prob
otherwise. -/
theorem normCDF_claim_formula (x : ℝ) :
    normCDF x =
      if x > 0 then
        1 - 0.3989423 * Real.exp (-(x^2)/2) * (1 / (1 + 0.2316419 * |x|))
          * (0.3193815 + (1 / (1 + 0.2316419 * |x|)) * (-0.3565638
            + (1 / (1 + 0.2316419 * |x|)) * (1.781478 + (1 / (1 + 0.2316419 * |x|))
              * (-1.821256 + (1 / (1 + 0.2316419 * |x|)) * 1.330274))))
      else
        0.3989423 * Real.exp (-(x^2)/2) * (1 / (1 + 0.2316419 * |x|))
          * (0.3193815 + (1 / (1 + 0.2316419 * |x|)) * (-0.3565638
            + (1 / (1 + 0.2316419 * |x|)) * (1.781478 + (1 / (1 + 0.2316419 * |x|))
              * (-1.821256 + (1 / (1 + 0.2316419 * |x|)) * 1.330274)))) := by
  unfold normCDF
  by_cases hx : x > 0
  · simp only [if_pos hx]
    ring_nf
  · simp only [if_neg hx]
    ring_nf

/-- C5: the two copies of the pricing logic are numerically identical: the
reverse.js normCDF and blackScholesCall agree with the default.js ones on
every input, despite one writing 0.5 sigma sigma and the other
(sigma sigma)/2. -/
theorem reverse_equals_default :
    (∀ x : ℝ, Rev.normCDF x = normCDF x)
    ∧ ∀ S K T r sigma : ℝ,
        Rev.blackScholesCall S K T r sigma = blackScholesCall S K T r sigma := by
  refine ⟨fun x => rfl, fun S K T r sigma => ?_⟩
  unfold Rev.blackScholesCall blackScholesCall
  by_cases h : T ≤ 0 ∨ sigma ≤ 0
  · rw [if_pos h, if_pos h]
  · rw [if_neg h, if_neg h]
    have hd : (Real.log (S / K) + (r + sigma * sigma / 2) * T) / (sigma * Real.sqrt T)
        = (Real.log (S / K) + (r + 0.5 * sigma * sigma) * T) / (sigma * Real.sqrt T) := by
      ring
    dsimp only
    rw [hd]
    rfl

/-- C8: for every real x, the value returned by normCDF lies in the range
[0, 1]; in the real-number semantics this holds exactly, hence in particular
within the documented 1e-6 tolerance. -/
theorem normCDF_in_unit_interval (x : ℝ) : 0 ≤ normCDF x ∧ normCDF x ≤ 1 :=
  ⟨normCDF_nonneg x, normCDF_le_one x⟩

/-- C9: for inputs with T > 0 and sigma > 0 but S ≤ 0 or K ≤ 0,
blackScholesCall performs no guard: the formula branch is taken unchanged
and ln(S/K) flows into the returned fields rather than being
special-cased. -/
theorem blackScholesCall_no_price_guard (S K T r sigma : ℝ)
    (hSK : S ≤ 0 ∨ K ≤ 0) (hT : 0 < T) (hs : 0 < sigma) :
    blackScholesCall S K T r sigma = .record
      { premium := S * normCDF ((Real.log (S / K) + (r + 0.5 * sigma * sigma) * T)
            / (sigma * Real.sqrt T))
          - K * Real.exp (-r * T) * normCDF ((Real.log (S / K)
              + (r + 0.5 * sigma * sigma) * T) / (sigma * Real.sqrt T)
            - sigma * Real.sqrt T),
        d1 := (Real.log (S / K) + (r + 0.5 * sigma * sigma) * T)
            / (sigma * Real.sqrt T),
        d2 := (Real.log (S / K) + (r + 0.5 * sigma * sigma) * T)
            / (sigma * Real.sqrt T) - sigma * Real.sqrt T,
        Nd1 := normCDF ((Real.log (S / K) + (r + 0.5 * sigma * sigma) * T)
            / (sigma * Real.sqrt T)),
        Nd2 := normCDF ((Real.log (S / K) + (r + 0.5 * sigma * sigma) * T)
            / (sigma * Real.sqrt T) - sigma * Real.sqrt T),
        discountFactor := Real.exp (-r * T) } := by
  rw [blackScholesCall_of_pos hT hs]
  rfl

/-- C9 witness: the unguarded formula branch taken at S = -1, K = 1, T = 1,
r = 0, sigma = 1. -/
theorem blackScholesCall_no_price_guard_witness :
    blackScholesCall (-1) 1 1 0 1 = .record
      { premium := (-1) * normCDF ((Real.log ((-1) / 1) + (0 + 0.5 * 1 * 1) * 1)
            / (1 * Real.sqrt 1))
          - 1 * Real.exp (-0 * 1) * normCDF ((Real.log ((-1) / 1)
              + (0 + 0.5 * 1 * 1) * 1) / (1 * Real.sqrt 1)
            - 1 * Real.sqrt 1),
        d1 := (Real.log ((-1) / 1) + (0 + 0.5 * 1 * 1) * 1)
            / (1 * Real.sqrt 1),
        d2 := (Real.log ((-1) / 1) + (0 + 0.5 * 1 * 1) * 1)
            / (1 * Real.sqrt 1) - 1 * Real.sqrt 1,
        Nd1 := normCDF ((Real.log ((-1) / 1) + (0 + 0.5 * 1 * 1) * 1)
            / (1 * Real.sqrt 1)),
        Nd2 := normCDF ((Real.log ((-1) / 1) + (0 + 0.5 * 1 * 1) * 1)
            / (1 * Real.sqrt 1) - 1 * Real.sqrt 1),
        discountFactor := Real.exp (-0 * 1) } :=
  blackScholesCall_no_price_guard (-1) 1 1 0 1 (Or.inl (by norm_num))
    one_pos one_pos

/-- C10: normCDF is monotonically non-decreasing, and in any record returned
by blackScholesCall with T > 0 and sigma > 0 the field Nd2 is at most Nd1,
since d2 ≤ d1. -/
theorem normCDF_monotone_claim :
    (∀ x y : ℝ, x ≤ y → normCDF x ≤ normCDF y)
    ∧ ∀ S K T r sigma : ℝ, 0 < T → 0 < sigma →
        ∀ p : PricingResult, blackScholesCall S K T r sigma = .record p →
          p.Nd2 ≤ p.Nd1 := by
  refine ⟨fun x y h => normCDF_mono h, fun S K T r sigma hT hs p hp => ?_⟩
  rw [blackScholesCall_of_pos hT hs] at hp
  rw [← BSResult.record.inj hp]
  unfold bsRecord
  dsimp only
  apply normCDF_mono
  have h1 : 0 < sigma * Real.sqrt T := mul_pos hs (Real.sqrt_pos.mpr hT)
  linarith

/-- C10 witness: monotonicity at the pair (0, 1) and the Nd2 ≤ Nd1 field
comparison at S = 1, K = 1, T = 1, r = 0, sigma = 1. -/
theorem normCDF_monotone_claim_witness :
    normCDF 0 ≤ normCDF 1 ∧ (bsRecord 1 1 1 0 1).Nd2 ≤ (bsRecord 1 1 1 0 1).Nd1 :=
  ⟨normCDF_monotone_claim.1 0 1 (by norm_num),
    normCDF_monotone_claim.2 1 1 1 0 1 one_pos one_pos (bsRecord 1 1 1 0 1)
      (blackScholesCall_of_pos one_pos one_pos)⟩

/-- C6: the sensitivity sweep produces exactly steps + 1 = 51 sample points,
the i-th sampled value being min + i (max - min)/50 with the keyed field
substituted and the other four fields unchanged, one pricer invocation per
sample; the points are in ascending x order whenever min < max, and in
particular the sweep over S with a positive base spot yields 51 points with
strictly increasing x values. -/
theorem generateSensitivityData_spec (inputs : Rev.Inputs) (key : Rev.ParamKey) :
    (Rev.generateSensitivityData inputs key).length = 50 + 1
    ∧ Rev.generateSensitivityData inputs key
        = (List.range (50 + 1)).map (fun (i : ℕ) =>
            let v := Rev.rangeMin inputs key
              + (i : ℝ) * ((Rev.rangeMax inputs key - Rev.rangeMin inputs key) / 50)
            { x := v,
              premium := (Rev.blackScholesCall (Rev.setParam inputs key v).S
                  (Rev.setParam inputs key v).K (Rev.setParam inputs key v).T
                  (Rev.setParam inputs key v).r
                  (Rev.setParam inputs key v).sigma).premiumField,
              label := Rev.rangeLabel key })
    ∧ (∀ v : ℝ, Rev.getParam (Rev.setParam inputs key v) key = v
        ∧ ∀ k2 : Rev.ParamKey, k2 ≠ key →
            Rev.getParam (Rev.setParam inputs key v) k2 = Rev.getParam inputs k2)
    ∧ (Rev.rangeMin inputs key < Rev.rangeMax inputs key →
        (Rev.generateSensitivityData inputs key).Pairwise fun p q => p.x < q.x)
    ∧ (0 < inputs.S → key = Rev.ParamKey.S →
        (Rev.generateSensitivityData inputs key).Pairwise fun p q => p.x < q.x) := by
  have heq : Rev.generateSensitivityData inputs key
      = (List.range (50 + 1)).map (fun (i : ℕ) =>
          let v := Rev.rangeMin inputs key
            + (i : ℝ) * ((Rev.rangeMax inputs key - Rev.rangeMin inputs key) / 50)
          { x := v,
            premium := (Rev.blackScholesCall (Rev.setParam inputs key v).S
                (Rev.setParam inputs key v).K (Rev.setParam inputs key v).T
                (Rev.setParam inputs key v).r
                (Rev.setParam inputs key v).sigma).premiumField,
            label := Rev.rangeLabel key }) := by
    simp only [Rev.generateSensitivityData, Nat.cast_ofNat]
  have hlen : (Rev.generateSensitivityData inputs key).length = 50 + 1 := by
    rw [heq, List.length_map, List.length_range]
  have hset : ∀ v : ℝ, Rev.getParam (Rev.setParam inputs key v) key = v
      ∧ ∀ k2 : Rev.ParamKey, k2 ≠ key →
          Rev.getParam (Rev.setParam inputs key v) k2 = Rev.getParam inputs k2 := by
    intro v
    constructor
    · cases key <;> rfl
    · intro k2 hne
      cases key <;> cases k2 <;> first | exact absurd rfl hne | rfl
  have hpair : Rev.rangeMin inputs key < Rev.rangeMax inputs key →
      (Rev.generateSensitivityData inputs key).Pairwise fun p q => p.x < q.x := by
    intro hlt
    have hstep : 0 < (Rev.rangeMax inputs key - Rev.rangeMin inputs key) / 50 :=
      div_pos (by linarith) (by norm_num)
    rw [heq, List.pairwise_map]
    refine (List.pairwise_lt_range _).imp ?_
    intro a b hab
    dsimp only
    have hc : (a:ℝ) < (b:ℝ) := Nat.cast_lt.mpr hab
    nlinarith [hstep, hc]
  refine ⟨hlen, heq, hset, hpair, ?_⟩
  intro hS hkey
  apply hpair
  subst hkey
  show Rev.rangeMin inputs Rev.ParamKey.S < Rev.rangeMax inputs Rev.ParamKey.S
  simp only [Rev.rangeMin, Rev.rangeMax]
  nlinarith [hS]

/-- C6 witness: the sweep over the spot at the base inputs S = 2500,
K = 2500, T = 1, r = 0.07, sigma = 0.25 has strictly increasing x values. -/
theorem generateSensitivityData_spec_witness :
    (Rev.generateSensitivityData ⟨2500, 2500, 1, 0.07, 0.25⟩ Rev.ParamKey.S).Pairwise
      (fun p q => p.x < q.x) :=
  (generateSensitivityData_spec ⟨2500, 2500, 1, 0.07, 0.25⟩ Rev.ParamKey.S).2.2.2.2
    (by norm_num) rfl

/-- C7 counterexample: holding K = 1, T = 1, r = 1/2, sigma = 1 fixed, the
premium is not non-decreasing in the spot: the value at spot 1 + 1e-9 is
strictly below the value at spot 1, because d2 crosses 0 there and the CDF
approximation steps up by about 3e-7 at its branch switch. -/
theorem premium_not_monotone_in_spot :
    (blackScholesCall (1 + 1/1000000000) 1 1 (1/2) 1).thePremium
      < (blackScholesCall 1 1 1 (1/2) 1).thePremium := by
  have hδ0 : 0 < Real.log (1 + 1/1000000000) := Real.log_pos (by norm_num)
  have hδe : Real.log (1 + 1/1000000000) ≤ 1/1000000000 := by
    have h := Real.log_le_sub_one_of_pos (show (0:ℝ) < 1 + 1/1000000000 by norm_num)
    linarith
  rw [premium_at, premium_at]
  rw [Real.log_one, add_zero]
  rw [normCDF_of_pos one_pos]
  rw [show normCDF 0 = gtail 0 by
    have h := normCDF_of_nonpos (le_refl (0:ℝ))
    rwa [neg_zero] at h]
  rw [normCDF_of_pos hδ0]
  rw [normCDF_of_pos (show (0:ℝ) < 1 + Real.log (1 + 1/1000000000) by linarith)]
  rw [gtail_zero]
  exact premium_jump_key hδ0 hδe (gtail_drop hδ0.le (by linarith))
    (gtail_nonneg (by linarith)) (gtail_le_gtail_zero hδ0.le)
    exp_neg_half_le_one exp_neg_half_gt

/-- C7 amended: holding K, T, r, sigma fixed (T > 0, sigma > 0, K > 0), the
two present-value components of the premium are non-decreasing in the spot
over positive spots: S normCDF(d1) is non-decreasing and normCDF(d2) is
non-decreasing (so the premium, their weighted difference, need not be). -/
theorem premium_components_monotone_in_spot
    (K T r sigma S1 S2 : ℝ) (hS1 : 0 < S1) (hS : S1 ≤ S2) (hK : 0 < K)
    (hT : 0 < T) (hs : 0 < sigma) (p q : PricingResult)
    (hp : blackScholesCall S1 K T r sigma = .record p)
    (hq : blackScholesCall S2 K T r sigma = .record q) :
    S1 * p.Nd1 ≤ S2 * q.Nd1 ∧ p.Nd2 ≤ q.Nd2 := by
  rw [blackScholesCall_of_pos hT hs] at hp hq
  rw [← BSResult.record.inj hp, ← BSResult.record.inj hq]
  unfold bsRecord
  dsimp only
  have hst : 0 < sigma * Real.sqrt T := mul_pos hs (Real.sqrt_pos.mpr hT)
  have hdiv : S1 / K ≤ S2 / K := (div_le_div_right hK).mpr hS
  have hlog : Real.log (S1 / K) ≤ Real.log (S2 / K) :=
    (Real.log_le_log_iff (div_pos hS1 hK) (div_pos (hS1.trans_le hS) hK)).mpr hdiv
  have hd1 : (Real.log (S1 / K) + (r + 0.5 * sigma * sigma) * T) / (sigma * Real.sqrt T)
      ≤ (Real.log (S2 / K) + (r + 0.5 * sigma * sigma) * T) / (sigma * Real.sqrt T) :=
    (div_le_div_right hst).mpr (by linarith)
  constructor
  · exact mul_le_mul hS (normCDF_mono hd1) (normCDF_nonneg _)
      (by linarith)
  · exact normCDF_mono (by linarith)

/-- C7 amended witness: the component monotonicity at spots 1 and 2 with
K = 1, T = 1, r = 0, sigma = 1. -/
theorem premium_components_monotone_in_spot_witness :
    (1:ℝ) * (bsRecord 1 1 1 0 1).Nd1 ≤ 2 * (bsRecord 2 1 1 0 1).Nd1
      ∧ (bsRecord 1 1 1 0 1).Nd2 ≤ (bsRecord 2 1 1 0 1).Nd2 :=
  premium_components_monotone_in_spot 1 1 0 1 1 2 one_pos (by norm_num) one_pos
    one_pos one_pos (bsRecord 1 1 1 0 1) (bsRecord 2 1 1 0 1)
    (blackScholesCall_of_pos one_pos one_pos)
    (blackScholesCall_of_pos one_pos one_pos)

end BS
